import Mathlib

/-!
Verification of the iggy message-broker excerpts against their specification.

The Rust sources are shallowly embedded: byte buffers become `List Nat`
(each element a byte value), machine integers become `Nat` with explicit
`% 2 ^ w` where the code truncates, Rust `Result` becomes `Except`, and a
Rust index-out-of-bounds panic is modelled by `Option.none` on functions
that slice without a bounds check.  Strings are modelled as `List Char`.
-/

deriving instance DecidableEq for Except

namespace IggyVerify

/-- Little-endian value of a byte list; models `uN::from_le_bytes`. -/
def leValue : List Nat → Nat
  | [] => 0
  | b :: bs => b + 256 * leValue bs

/-- Little-endian 4-byte encoding of a `u32`; models `u32::to_le_bytes`. -/
def u32ToLeBytes (n : Nat) : List Nat :=
  [n % 256, n / 256 % 256, n / 65536 % 256, n / 16777216 % 256]

theorem leValue_u32ToLeBytes (n : Nat) : leValue (u32ToLeBytes n) = n % 4294967296 := by
  simp only [u32ToLeBytes, leValue]
  omega

/-- Models the Rust slice `payload[start..start + len]`: `none` is the
out-of-bounds panic, `some` the selected bytes. -/
def sliceBytes (payload : List Nat) (start len : Nat) : Option (List Nat) :=
  if start + len ≤ payload.length then some ((payload.drop start).take len) else none

/-- Models `u32::from_le_bytes(payload[pos..pos + 4].try_into()?)`; the
`try_into` cannot fail once the slice has the exact length, so the only
failure is the slicing panic. -/
def readU32LE (payload : List Nat) (pos : Nat) : Option Nat :=
  (sliceBytes payload pos 4).map leValue

/-- Models `u64::from_le_bytes(payload[pos..pos + 8].try_into()?)`. -/
def readU64LE (payload : List Nat) (pos : Nat) : Option Nat :=
  (sliceBytes payload pos 8).map leValue

/-- Models `u128::from_le_bytes(payload[pos..pos + 16].try_into()?)`. -/
def readU128LE (payload : List Nat) (pos : Nat) : Option Nat :=
  (sliceBytes payload pos 16).map leValue

theorem sliceBytes_of_le {payload : List Nat} {start len : Nat}
    (h : start + len ≤ payload.length) :
    sliceBytes payload start len = some ((payload.drop start).take len) := by
  simp [sliceBytes, h]

theorem sliceBytes_of_gt {payload : List Nat} {start len : Nat}
    (h : payload.length < start + len) :
    sliceBytes payload start len = none := by
  simp [sliceBytes]
  omega

/-! ## Decimal strings

Models `u32`'s `Display` (decimal digits) and `u32::from_str` (`parse`). -/

/-- The character of a single decimal digit. -/
def digitToChar : Nat → Char
  | 0 => '0'
  | 1 => '1'
  | 2 => '2'
  | 3 => '3'
  | 4 => '4'
  | 5 => '5'
  | 6 => '6'
  | 7 => '7'
  | 8 => '8'
  | 9 => '9'
  | _ => '0'

def charToDigit (c : Char) : Nat := c.toNat - 48

def isDigitChar (c : Char) : Bool := 48 ≤ c.toNat && c.toNat ≤ 57

/-- Numeric value of a decimal digit string. -/
def decValue (ds : List Char) : Nat :=
  ds.foldl (fun acc c => acc * 10 + charToDigit c) 0

/-- Decimal digits of `n`, most significant first; fuel-based so that it
evaluates by `decide` (any fuel above `n` suffices). -/
def natToDecAux : Nat → Nat → List Char
  | 0, _ => []
  | fuel + 1, n =>
    if n < 10 then [digitToChar n]
    else natToDecAux fuel (n / 10) ++ [digitToChar (n % 10)]

/-- Decimal rendering of `n`; models the `Display` of an unsigned integer. -/
def natToDec (n : Nat) : List Char := natToDecAux (n + 1) n

theorem digitToChar_spec : ∀ d < 10,
    charToDigit (digitToChar d) = d ∧ isDigitChar (digitToChar d) = true := by decide

theorem natToDecAux_digits : ∀ fuel n, n < fuel →
    ∀ c ∈ natToDecAux fuel n, isDigitChar c = true := by
  intro fuel
  induction fuel with
  | zero => intro n h; omega
  | succ fuel ih =>
    intro n h c hc
    by_cases hn : n < 10
    · simp only [natToDecAux, if_pos hn, List.mem_singleton] at hc
      exact hc ▸ (digitToChar_spec n hn).2
    · simp only [natToDecAux, if_neg hn, List.mem_append, List.mem_singleton] at hc
      rcases hc with hc | hc
      · exact ih (n / 10) (by omega) c hc
      · exact hc ▸ (digitToChar_spec (n % 10) (by omega)).2

theorem natToDecAux_ne_nil : ∀ fuel n, n < fuel → natToDecAux fuel n ≠ [] := by
  intro fuel n h
  cases fuel with
  | zero => omega
  | succ fuel =>
    by_cases hn : n < 10 <;> simp [natToDecAux, hn]

theorem decValue_append_digit (ds : List Char) (c : Char) :
    decValue (ds ++ [c]) = decValue ds * 10 + charToDigit c := by
  simp [decValue, List.foldl_append]

theorem decValue_natToDecAux : ∀ fuel n, n < fuel →
    decValue (natToDecAux fuel n) = n := by
  intro fuel
  induction fuel with
  | zero => intro n h; omega
  | succ fuel ih =>
    intro n h
    by_cases hn : n < 10
    · simp only [natToDecAux, if_pos hn]
      simpa [decValue] using (digitToChar_spec n hn).1
    · simp only [natToDecAux, if_neg hn, decValue_append_digit]
      rw [ih (n / 10) (by omega), (digitToChar_spec (n % 10) (by omega)).1]
      omega

theorem natToDec_digits (n : Nat) : ∀ c ∈ natToDec n, isDigitChar c = true :=
  natToDecAux_digits (n + 1) n (Nat.lt_succ_self n)

theorem natToDec_ne_nil (n : Nat) : natToDec n ≠ [] :=
  natToDecAux_ne_nil (n + 1) n (Nat.lt_succ_self n)

theorem decValue_natToDec (n : Nat) : decValue (natToDec n) = n :=
  decValue_natToDecAux (n + 1) n (Nat.lt_succ_self n)

/-! ## Splitting on a separator

Models Rust's `str::split(sep)`: the empty string yields one empty part,
and every occurrence of the separator starts a new part. -/

def splitOnChar (sep : Char) : List Char → List (List Char)
  | [] => [[]]
  | c :: rest =>
    match splitOnChar sep rest with
    | [] => [[c]]
    | h :: t => if c = sep then [] :: h :: t else (c :: h) :: t

theorem splitOnChar_ne_nil (sep : Char) : ∀ l, splitOnChar sep l ≠ [] := by
  intro l
  cases l with
  | nil => simp [splitOnChar]
  | cons c rest =>
    simp only [splitOnChar]
    rcases h : splitOnChar sep rest with _ | ⟨h', t⟩
    · simp
    · by_cases hc : c = sep <;> simp [hc]

theorem splitOnChar_no_sep (sep : Char) :
    ∀ l, (∀ c ∈ l, c ≠ sep) → splitOnChar sep l = [l] := by
  intro l
  induction l with
  | nil => intro _; rfl
  | cons c rest ih =>
    intro h
    have hrest := ih fun x hx => h x (List.mem_cons_of_mem c hx)
    have hc : c ≠ sep := h c (List.mem_cons_self c rest)
    simp [splitOnChar, hrest, hc]

theorem splitOnChar_append_sep (sep : Char) :
    ∀ xs ys, (∀ c ∈ xs, c ≠ sep) →
      splitOnChar sep (xs ++ sep :: ys) = xs :: splitOnChar sep ys := by
  intro xs
  induction xs with
  | nil =>
    intro ys _
    rcases h : splitOnChar sep ys with _ | ⟨h', t⟩
    · exact absurd h (splitOnChar_ne_nil sep ys)
    · simp [splitOnChar, h]
  | cons x xs ih =>
    intro ys h
    have hx : x ≠ sep := h x (List.mem_cons_self x xs)
    have hxs := ih ys fun c hc => h c (List.mem_cons_of_mem x hc)
    simp [splitOnChar, hxs, hx]

/-! ## u32 parsing

Models `u32::from_str` (`str::parse::<u32>`): an optional leading `'+'`,
then at least one decimal digit, with the value below `2 ^ 32`; everything
else is a parse error.  The iggy `Error` conversion of a `ParseIntError`
is a single variant here since no claim distinguishes its cases. -/

/-- The iggy `Error` enum (`iggy::error::Error`), restricted to the
variants the embedded code can produce. -/
inductive Error where
  | invalidCommand
  | invalidStreamId
  | invalidTopicId
  | cannotParseInt
  | invalidUtf8
  | resourceAlreadyExists
  | ioError
deriving DecidableEq, Repr

def parseU32 (s : List Char) : Except Error Nat :=
  let digits :=
    match s with
    | c :: rest => if c = '+' then rest else s
    | [] => []
  if digits.isEmpty then .error .cannotParseInt
  else if digits.all isDigitChar then
    let v := decValue digits
    if v < 4294967296 then .ok v else .error .cannotParseInt
  else .error .cannotParseInt

theorem isDigitChar_ne_plus {c : Char} (h : isDigitChar c = true) : c ≠ '+' := by
  intro hc
  subst hc
  exact absurd h (by decide)

theorem isDigitChar_ne_bar {c : Char} (h : isDigitChar c = true) : c ≠ '|' := by
  intro hc
  subst hc
  exact absurd h (by decide)

theorem parseU32_natToDec {n : Nat} (h : n < 4294967296) :
    parseU32 (natToDec n) = .ok n := by
  rcases hd : natToDec n with _ | ⟨c, rest⟩
  · exact absurd hd (natToDec_ne_nil n)
  · have hall : ∀ x ∈ natToDec n, isDigitChar x = true := natToDec_digits n
    have hc : c ≠ '+' := by
      apply isDigitChar_ne_plus
      exact hall c (hd ▸ List.mem_cons_self c rest)
    have hall' : (c :: rest).all isDigitChar = true := by
      rw [List.all_eq_true]
      intro x hx
      exact hall x (hd ▸ hx)
    have hval : decValue (c :: rest) = n := hd ▸ decValue_natToDec n
    simp [parseU32, hc, hall', hval, h]

/-! ## The DeletePartitions command

Embedded from `src/iggy/src/partitions/delete_partitions.rs`.  The three
fields are `u32` in the source; here they are `Nat`, with `< 2 ^ 32`
hypotheses exactly where a theorem depends on the `u32` range. -/

structure DeletePartitions where
  stream_id : Nat
  topic_id : Nat
  partitions_count : Nat
deriving DecidableEq, Repr

namespace DeletePartitions

/-- Source `Validatable for DeletePartitions` (lines 35-47 of the source). -/
def validate (c : DeletePartitions) : Except Error Unit :=
  if c.stream_id = 0 then .error .invalidStreamId
  else if c.topic_id = 0 then .error .invalidTopicId
  else .ok ()

/-- Source `as_bytes` (lines 71-77): the three fields, little-endian, in order. -/
def as_bytes (c : DeletePartitions) : List Nat :=
  u32ToLeBytes c.stream_id ++ u32ToLeBytes c.topic_id ++ u32ToLeBytes c.partitions_count

/-- Source `from_bytes` (lines 79-95): length must be exactly 12, then the three
fields are decoded little-endian and the command is validated.  After the
length check the slices are in range, so no panic can occur. -/
def from_bytes (bytes : List Nat) : Except Error DeletePartitions :=
  if bytes.length ≠ 12 then .error .invalidCommand
  else
    let stream_id := leValue (bytes.take 4)
    let topic_id := leValue ((bytes.drop 4).take 4)
    let partitions_count := leValue ((bytes.drop 8).take 4)
    let command : DeletePartitions := ⟨stream_id, topic_id, partitions_count⟩
    match command.validate with
    | .error e => .error e
    | .ok _ => .ok command

/-- Source `Display for DeletePartitions` (lines 97-105): the three
fields in decimal, separated by vertical bars. -/
def toDisplay (c : DeletePartitions) : List Char :=
  natToDec c.stream_id ++ '|' :: natToDec c.topic_id ++ '|' :: natToDec c.partitions_count

/-- Source `FromStr for DeletePartitions` (lines 49-68): split on `'|'`, require
exactly three parts, parse each as `u32`, then validate. -/
def from_str (input : List Char) : Except Error DeletePartitions :=
  match splitOnChar '|' input with
  | [p0, p1, p2] =>
    match parseU32 p0 with
    | .error e => .error e
    | .ok stream_id =>
      match parseU32 p1 with
      | .error e => .error e
      | .ok topic_id =>
        match parseU32 p2 with
        | .error e => .error e
        | .ok partitions_count =>
          let command : DeletePartitions := ⟨stream_id, topic_id, partitions_count⟩
          match command.validate with
          | .error e => .error e
          | .ok _ => .ok command
  | _ => .error .invalidCommand

theorem as_bytes_length (c : DeletePartitions) : (as_bytes c).length = 12 := by
  simp [as_bytes, u32ToLeBytes]

/-- Decoding an encoding always reaches `validate`: the result is the
validation verdict, with the command recovered exactly (on `u32` fields). -/
theorem from_bytes_as_bytes (s t p : Nat)
    (hs : s < 4294967296) (ht : t < 4294967296) (hp : p < 4294967296) :
    from_bytes (as_bytes ⟨s, t, p⟩) =
      if s = 0 then .error .invalidStreamId
      else if t = 0 then .error .invalidTopicId
      else .ok ⟨s, t, p⟩ := by
  have hlen : (as_bytes ⟨s, t, p⟩).length = 12 := as_bytes_length _
  have h0 : (as_bytes ⟨s, t, p⟩).take 4 = u32ToLeBytes s := by
    simp [as_bytes, u32ToLeBytes]
  have h4 : ((as_bytes ⟨s, t, p⟩).drop 4).take 4 = u32ToLeBytes t := by
    simp [as_bytes, u32ToLeBytes]
  have h8 : ((as_bytes ⟨s, t, p⟩).drop 8).take 4 = u32ToLeBytes p := by
    simp [as_bytes, u32ToLeBytes]
  simp only [from_bytes, hlen, h0, h4, h8, leValue_u32ToLeBytes,
    Nat.mod_eq_of_lt hs, Nat.mod_eq_of_lt ht, Nat.mod_eq_of_lt hp]
  by_cases hs0 : s = 0
  · simp [validate, hs0]
  · by_cases ht0 : t = 0 <;> simp [validate, hs0, ht0]

/-- Parsing the display form always reaches `validate`: the result is the
validation verdict, with the command recovered exactly (on `u32` fields). -/
theorem from_str_toDisplay (s t p : Nat)
    (hs : s < 4294967296) (ht : t < 4294967296) (hp : p < 4294967296) :
    from_str (toDisplay ⟨s, t, p⟩) =
      if s = 0 then .error .invalidStreamId
      else if t = 0 then .error .invalidTopicId
      else .ok ⟨s, t, p⟩ := by
  have hnb : ∀ n : Nat, ∀ c ∈ natToDec n, c ≠ '|' :=
    fun n c hc => isDigitChar_ne_bar (natToDec_digits n c hc)
  have hsplit : splitOnChar '|' (toDisplay ⟨s, t, p⟩) =
      [natToDec s, natToDec t, natToDec p] := by
    have hd : toDisplay ⟨s, t, p⟩ =
        natToDec s ++ '|' :: (natToDec t ++ '|' :: natToDec p) := by
      simp [toDisplay]
    rw [hd, splitOnChar_append_sep '|' _ _ (hnb s),
      splitOnChar_append_sep '|' _ _ (hnb t),
      splitOnChar_no_sep '|' _ (hnb p)]
  simp only [from_str, hsplit, parseU32_natToDec hs, parseU32_natToDec ht,
    parseU32_natToDec hp]
  by_cases hs0 : s = 0
  · simp [validate, hs0]
  · by_cases ht0 : t = 0 <;> simp [validate, hs0, ht0]

end DeletePartitions

/-! ## Claims C1, C6, C7, C10: the DeletePartitions command surface -/

/-- Claim C1, counterexample: the round-trip fails for a command with
`stream_id = 0`, because `from_bytes` validates the decoded command and
returns `InvalidStreamId` instead of `Ok`. -/
theorem c1_roundtrip_counterexample :
    DeletePartitions.from_bytes (DeletePartitions.as_bytes ⟨0, 1, 1⟩) =
      .error .invalidStreamId ∧
    DeletePartitions.from_bytes (DeletePartitions.as_bytes ⟨0, 1, 1⟩) ≠
      .ok ⟨0, 1, 1⟩ ∧
    DeletePartitions.from_str (DeletePartitions.toDisplay ⟨0, 1, 1⟩) ≠
      .ok ⟨0, 1, 1⟩ := by
  refine ⟨by decide, by decide, by decide⟩

/-- Claim C1 (amended): for every DeletePartitions command whose `u32`
fields satisfy `stream_id ≠ 0` and `topic_id ≠ 0`, decoding the encoding
recovers the command in both forms: `from_bytes (as_bytes C) = Ok C` and
`from_str (toDisplay C) = Ok C`. -/
theorem deletePartitions_roundtrip (s t p : Nat)
    (hs : s < 4294967296) (ht : t < 4294967296) (hp : p < 4294967296)
    (hs0 : s ≠ 0) (ht0 : t ≠ 0) :
    DeletePartitions.from_bytes (DeletePartitions.as_bytes ⟨s, t, p⟩) = .ok ⟨s, t, p⟩ ∧
    DeletePartitions.from_str (DeletePartitions.toDisplay ⟨s, t, p⟩) = .ok ⟨s, t, p⟩ := by
  rw [DeletePartitions.from_bytes_as_bytes s t p hs ht hp,
    DeletePartitions.from_str_toDisplay s t p hs ht hp]
  simp [hs0, ht0]

/-- Claim C1, witness: the round-trip theorem applied to the command
`{stream_id := 5, topic_id := 6, partitions_count := 7}`. -/
theorem deletePartitions_roundtrip_witness :
    DeletePartitions.from_bytes (DeletePartitions.as_bytes ⟨5, 6, 7⟩) = .ok ⟨5, 6, 7⟩ ∧
    DeletePartitions.from_str (DeletePartitions.toDisplay ⟨5, 6, 7⟩) = .ok ⟨5, 6, 7⟩ :=
  deletePartitions_roundtrip 5 6 7 (by decide) (by decide) (by decide)
    (by decide) (by decide)

/-- Claim C6: `validate` fails with `InvalidStreamId` when `stream_id = 0`,
with `InvalidTopicId` when `stream_id ≠ 0` and `topic_id = 0`, and succeeds
otherwise, for any `partitions_count` including 0; and `from_bytes` and
`from_str`, which call it on the decoded command, return exactly the same
verdict on encoded inputs. -/
theorem deletePartitions_validate_cases (s t p : Nat)
    (hs : s < 4294967296) (ht : t < 4294967296) (hp : p < 4294967296) :
    DeletePartitions.validate ⟨s, t, p⟩ =
      (if s = 0 then .error .invalidStreamId
       else if t = 0 then .error .invalidTopicId
       else .ok ()) ∧
    DeletePartitions.from_bytes (DeletePartitions.as_bytes ⟨s, t, p⟩) =
      (if s = 0 then .error .invalidStreamId
       else if t = 0 then .error .invalidTopicId
       else .ok ⟨s, t, p⟩) ∧
    DeletePartitions.from_str (DeletePartitions.toDisplay ⟨s, t, p⟩) =
      (if s = 0 then .error .invalidStreamId
       else if t = 0 then .error .invalidTopicId
       else .ok ⟨s, t, p⟩) := by
  refine ⟨?_, DeletePartitions.from_bytes_as_bytes s t p hs ht hp,
    DeletePartitions.from_str_toDisplay s t p hs ht hp⟩
  by_cases hs0 : s = 0
  · simp [DeletePartitions.validate, hs0]
  · by_cases ht0 : t = 0 <;> simp [DeletePartitions.validate, hs0, ht0]

/-- Claim C6, witness: the validation cases applied to
`{stream_id := 0, topic_id := 5, partitions_count := 0}`, which fails with
`InvalidStreamId` through all three entry points (`partitions_count = 0` is
accepted by validation itself). -/
theorem deletePartitions_validate_cases_witness :
    DeletePartitions.validate ⟨0, 5, 0⟩ = .error .invalidStreamId ∧
    DeletePartitions.from_bytes (DeletePartitions.as_bytes ⟨0, 5, 0⟩) =
      .error .invalidStreamId ∧
    DeletePartitions.from_str (DeletePartitions.toDisplay ⟨0, 5, 0⟩) =
      .error .invalidStreamId := by
  simpa using deletePartitions_validate_cases 0 5 0 (by decide) (by decide) (by decide)

/-- Claim C7: the command `{stream_id := 1, topic_id := 2, partitions_count := 3}`
serializes to exactly the 12 bytes `01 00 00 00 02 00 00 00 03 00 00 00`
(each field little-endian `u32`, in order), and its display form is
`"1|2|3"`. -/
theorem deletePartitions_concrete_serialization :
    DeletePartitions.as_bytes ⟨1, 2, 3⟩ = [1, 0, 0, 0, 2, 0, 0, 0, 3, 0, 0, 0] ∧
    (DeletePartitions.as_bytes ⟨1, 2, 3⟩).length = 12 ∧
    DeletePartitions.toDisplay ⟨1, 2, 3⟩ = ['1', '|', '2', '|', '3'] ∧
    (DeletePartitions.toDisplay ⟨1, 2, 3⟩).asString = "1|2|3" := by
  refine ⟨by decide, by decide, by decide, ?_⟩
  rfl

/-- Claim C10: `from_bytes` rejects every input whose length is not exactly
12 with `InvalidCommand` (including longer buffers with a valid prefix),
and `from_str` rejects every input that does not split into exactly three
`'|'`-separated parts with `InvalidCommand`. -/
theorem deletePartitions_strict_decoders :
    (∀ bytes : List Nat, bytes.length ≠ 12 →
      DeletePartitions.from_bytes bytes = .error .invalidCommand) ∧
    (∀ input : List Char, (splitOnChar '|' input).length ≠ 3 →
      DeletePartitions.from_str input = .error .invalidCommand) := by
  constructor
  · intro bytes h
    simp [DeletePartitions.from_bytes, h]
  · intro input h
    rcases hsp : splitOnChar '|' input with _ | ⟨a, _ | ⟨b, _ | ⟨c, _ | ⟨d, t⟩⟩⟩⟩ <;>
      simp [hsp] at h ⊢ <;> simp [DeletePartitions.from_str, hsp]

/-- Claim C10, witness: a 13-byte buffer whose first 12 bytes are a valid
encoding is rejected, and the two-part string `"1|2"` is rejected. -/
theorem deletePartitions_strict_decoders_witness :
    DeletePartitions.from_bytes (DeletePartitions.as_bytes ⟨1, 2, 3⟩ ++ [0]) =
      .error .invalidCommand ∧
    DeletePartitions.from_str ['1', '|', '2'] = .error .invalidCommand :=
  ⟨deletePartitions_strict_decoders.1 _ (by decide),
    deletePartitions_strict_decoders.2 _ (by decide)⟩

/-! ## The SDK binary mapper

Embedded from `src/sdk/src/binary/mapper.rs`.  Mapper results are
`Option`-wrapped: `none` models a Rust index-out-of-bounds panic of an
unchecked slice; `Except Error` appears where the source can return an
error (`from_utf8`). -/

/-- RFC 3629 UTF-8 validity; models `std::str::from_utf8` succeeding. -/
def isContByte (b : Nat) : Bool := 0x80 ≤ b && b ≤ 0xBF

def isValidUtf8 : List Nat → Bool
  | [] => true
  | b1 :: rest =>
    if b1 ≤ 0x7F then isValidUtf8 rest
    else
      match rest with
      | [] => false
      | b2 :: rest2 =>
        if 0xC2 ≤ b1 && b1 ≤ 0xDF then isContByte b2 && isValidUtf8 rest2
        else
          match rest2 with
          | [] => false
          | b3 :: rest3 =>
            if b1 = 0xE0 then
              (0xA0 ≤ b2 && b2 ≤ 0xBF) && isContByte b3 && isValidUtf8 rest3
            else if (0xE1 ≤ b1 && b1 ≤ 0xEC) || b1 = 0xEE || b1 = 0xEF then
              isContByte b2 && isContByte b3 && isValidUtf8 rest3
            else if b1 = 0xED then
              (0x80 ≤ b2 && b2 ≤ 0x9F) && isContByte b3 && isValidUtf8 rest3
            else
              match rest3 with
              | [] => false
              | b4 :: rest4 =>
                if b1 = 0xF0 then
                  (0x90 ≤ b2 && b2 ≤ 0xBF) && isContByte b3 && isContByte b4 &&
                    isValidUtf8 rest4
                else if 0xF1 ≤ b1 && b1 ≤ 0xF3 then
                  isContByte b2 && isContByte b3 && isContByte b4 && isValidUtf8 rest4
                else if b1 = 0xF4 then
                  (0x80 ≤ b2 && b2 ≤ 0x8F) && isContByte b3 && isContByte b4 &&
                    isValidUtf8 rest4
                else false

/-- Models `from_utf8(bytes)?.to_string()`: names are kept as their raw
bytes, guarded by UTF-8 validity. -/
def fromUtf8 (bytes : List Nat) : Except Error (List Nat) :=
  if isValidUtf8 bytes then .ok bytes else .error .invalidUtf8

namespace Mapper

structure Offset where
  consumer_id : Nat
  offset : Nat
deriving DecidableEq, Repr

structure Message where
  offset : Nat
  timestamp : Nat
  id : Nat
  length : Nat
  payload : List Nat
deriving DecidableEq, Repr

structure Stream where
  id : Nat
  topics_count : Nat
  name : List Nat
deriving DecidableEq, Repr

structure Topic where
  id : Nat
  partitions_count : Nat
  name : List Nat
deriving DecidableEq, Repr

structure Partition where
  id : Nat
  segments_count : Nat
  current_offset : Nat
  size_bytes : Nat
deriving DecidableEq, Repr

structure TopicDetails where
  id : Nat
  name : List Nat
  partitions_count : Nat
  partitions : List Partition
deriving DecidableEq, Repr

/-- Source `map_offset` (lines 15-22): consumer id from bytes `0..4`, offset from
bytes `4..12`, both little-endian; a shorter payload panics. -/
def map_offset (payload : List Nat) : Option Offset :=
  match readU32LE payload 0, readU64LE payload 4 with
  | some consumerId, some offset => some ⟨consumerId, offset⟩
  | _, _ => none

/-- Message order used by the final `sort_by` of `map_messages`. -/
def msgLE (a b : Message) : Prop := a.offset ≤ b.offset

instance : DecidableRel msgLE := fun a b => Nat.decLe a.offset b.offset

instance : IsTotal Message msgLE := ⟨fun a b => Nat.le_total a.offset b.offset⟩

instance : IsTrans Message msgLE := ⟨fun _ _ _ => Nat.le_trans⟩

/-- Models `messages.sort_by(|x, y| x.offset.cmp(&y.offset))`: a stable
sort by offset. -/
def sortMessagesByOffset (l : List Message) : List Message :=
  List.insertionSort msgLE l

/-- The `while` loop of `map_messages` (lines 68-95).  Each iteration
reads a 36-byte header (panicking if it crosses the end), breaks on a
truncated message payload, appends the message, and breaks when fewer than
`PROPERTIES_SIZE` bytes remain.  Fuel only bounds the iteration count; the
loop advances by at least 36 bytes per step, so `payload.length + 1` fuel
never runs out (proved below). -/
def mapMessagesLoop (payload : List Nat) : Nat → Nat → List Message → Option (List Message)
  | 0, _, _ => none
  | fuel + 1, position, acc =>
    if position < payload.length then
      match readU64LE payload position, readU64LE payload (position + 8),
          readU128LE payload (position + 16), readU32LE payload (position + 32) with
      | some offset, some timestamp, some id, some messageLength =>
        if position + 36 > payload.length ∨
            position + 36 + messageLength > payload.length then
          some acc
        else
          let msgPayload := (payload.drop (position + 36)).take messageLength
          let acc2 := acc ++ [⟨offset, timestamp, id, messageLength, msgPayload⟩]
          let position2 := position + 36 + messageLength
          if position2 + 36 ≥ payload.length then some acc2
          else mapMessagesLoop payload fuel position2 acc2
      | _, _, _, _ => none
    else some acc

/-- Source `map_messages` (lines 59-99): empty payloads map to no messages; the
first four bytes are skipped, then messages are decoded from position 4
and finally sorted by offset. -/
def map_messages (payload : List Nat) : Option (List Message) :=
  if payload.isEmpty then some []
  else (mapMessagesLoop payload (payload.length + 1) 4 []).map sortMessagesByOffset

/-- Source `map_to_stream` (lines 144-158): id, topics count and name length from
three consecutive little-endian `u32`s, then the UTF-8 name. -/
def map_to_stream (payload : List Nat) (position : Nat) :
    Option (Except Error (Stream × Nat)) :=
  match readU32LE payload position, readU32LE payload (position + 4),
      readU32LE payload (position + 8) with
  | some id, some topicsCount, some nameLength =>
    match sliceBytes payload (position + 12) nameLength with
    | some nameBytes =>
      match fromUtf8 nameBytes with
      | .ok name => some (.ok (⟨id, topicsCount, name⟩, 4 + 4 + 4 + nameLength))
      | .error e => some (.error e)
    | none => none
  | _, _, _ => none

/-- Source `map_to_topic` (lines 203-217): id, partitions count and name length
from three consecutive little-endian `u32`s, then the UTF-8 name. -/
def map_to_topic (payload : List Nat) (position : Nat) :
    Option (Except Error (Topic × Nat)) :=
  match readU32LE payload position, readU32LE payload (position + 4),
      readU32LE payload (position + 8) with
  | some id, some partitionsCount, some nameLength =>
    match sliceBytes payload (position + 12) nameLength with
    | some nameBytes =>
      match fromUtf8 nameBytes with
      | .ok name => some (.ok (⟨id, partitionsCount, name⟩, 4 + 4 + 4 + nameLength))
      | .error e => some (.error e)
    | none => none
  | _, _, _ => none

/-- Source `map_to_partition` (lines 219-234): four fixed-width fields, 24 bytes
consumed; the `Result` in the source has no error path left once the
slices are in bounds. -/
def map_to_partition (payload : List Nat) (position : Nat) :
    Option (Partition × Nat) :=
  match readU32LE payload position, readU32LE payload (position + 4),
      readU64LE payload (position + 8), readU64LE payload (position + 16) with
  | some id, some segmentsCount, some currentOffset, some sizeBytes =>
    some (⟨id, segmentsCount, currentOffset, sizeBytes⟩, 4 + 4 + 8 + 8)
  | _, _, _, _ => none

/-- Partition order used by the `sort_by` of `map_topic`. -/
def partitionLE (a b : Partition) : Prop := a.id ≤ b.id

instance : DecidableRel partitionLE := fun a b => Nat.decLe a.id b.id

/-- The partition `while` loop of `map_topic` (lines 184-191); fuel as in
`mapMessagesLoop`. -/
def mapTopicPartitionsLoop (payload : List Nat) :
    Nat → Nat → List Partition → Option (List Partition)
  | 0, _, _ => none
  | fuel + 1, position, acc =>
    if position < payload.length then
      match map_to_partition payload position with
      | some (partition, readBytes) =>
        let acc2 := acc ++ [partition]
        let position2 := position + readBytes
        if position2 ≥ payload.length then some acc2
        else mapTopicPartitionsLoop payload fuel position2 acc2
      | none => none
    else some acc

/-- Source `map_topic` (lines 180-201): decodes the topic header with
`map_to_stream` (as the source does), then the partitions, sorted by id;
`partitions_count` is the number of decoded partitions. -/
def map_topic (payload : List Nat) : Option (Except Error TopicDetails) :=
  match map_to_stream payload 0 with
  | none => none
  | some (.error e) => some (.error e)
  | some (.ok (topic, position)) =>
    match mapTopicPartitionsLoop payload (payload.length + 1) position [] with
    | none => none
    | some partitions =>
      let sorted := List.insertionSort partitionLE partitions
      some (.ok ⟨topic.id, topic.name, sorted.length, sorted⟩)

/-- Modelled from the spec: the comparison decoder for claim C2 — what
`map_topic` would be if its header were decoded with the field-correct
`map_to_topic` instead of `map_to_stream`; identical otherwise. -/
def mapTopicWithTopicHeader (payload : List Nat) : Option (Except Error TopicDetails) :=
  match map_to_topic payload 0 with
  | none => none
  | some (.error e) => some (.error e)
  | some (.ok (topic, position)) =>
    match mapTopicPartitionsLoop payload (payload.length + 1) position [] with
    | none => none
    | some partitions =>
      let sorted := List.insertionSort partitionLE partitions
      some (.ok ⟨topic.id, topic.name, sorted.length, sorted⟩)

/-- Reference decoding of the message chain starting at `position`, the
characterization the loop is proved to return (before sorting): while a
36-byte header fits, decode it; stop at the first message whose payload
would overrun the end of the buffer (dropping that message and everything
after it); after appending a message, also stop when at most 36 bytes
remain — which drops even a *complete* zero-length trailing message whose
header ends exactly at the end of the buffer.  Fuel-based like the loop so
that it evaluates by `decide`; any fuel above `payload.length / 36 + 1`
gives the same value under the lockstep theorem below. -/
def decodeMessagesAux (payload : List Nat) : Nat → Nat → List Message
  | 0, _ => []
  | fuel + 1, position =>
    if position + 36 ≤ payload.length then
      let offset := leValue ((payload.drop position).take 8)
      let timestamp := leValue ((payload.drop (position + 8)).take 8)
      let id := leValue ((payload.drop (position + 16)).take 16)
      let messageLength := leValue ((payload.drop (position + 32)).take 4)
      if position + 36 + messageLength > payload.length then []
      else
        let m : Message :=
          ⟨offset, timestamp, id, messageLength,
            (payload.drop (position + 36)).take messageLength⟩
        if position + 36 + messageLength + 36 ≥ payload.length then [m]
        else m :: decodeMessagesAux payload fuel (position + 36 + messageLength)
    else []

/-- The message loop runs in lockstep with the reference decoding: once a
36-byte header fits at the start position and the fuel covers the length,
every header read is in range (so the loop never panics) and the loop
returns exactly the accumulator followed by the reference chain. -/
theorem mapMessagesLoop_eq_decode (payload : List Nat) :
    ∀ fuel position acc, position + 36 ≤ payload.length →
      payload.length ≤ position + 36 * fuel →
      mapMessagesLoop payload fuel position acc =
        some (acc ++ decodeMessagesAux payload fuel position) := by
  intro fuel
  induction fuel with
  | zero => intro position acc h1 h2; omega
  | succ fuel ih =>
    intro position acc h1 h2
    have hpos : position < payload.length := by omega
    have r1 : readU64LE payload position =
        some (leValue ((payload.drop position).take 8)) := by
      simp [readU64LE, sliceBytes_of_le (show position + 8 ≤ payload.length by omega)]
    have r2 : readU64LE payload (position + 8) =
        some (leValue ((payload.drop (position + 8)).take 8)) := by
      simp [readU64LE, sliceBytes_of_le (show position + 8 + 8 ≤ payload.length by omega)]
    have r3 : readU128LE payload (position + 16) =
        some (leValue ((payload.drop (position + 16)).take 16)) := by
      simp [readU128LE, sliceBytes_of_le (show position + 16 + 16 ≤ payload.length by omega)]
    have r4 : readU32LE payload (position + 32) =
        some (leValue ((payload.drop (position + 32)).take 4)) := by
      simp [readU32LE, sliceBytes_of_le (show position + 32 + 4 ≤ payload.length by omega)]
    rw [mapMessagesLoop, if_pos hpos, r1, r2, r3, r4, decodeMessagesAux, if_pos h1]
    dsimp only
    set messageLength := leValue ((payload.drop (position + 32)).take 4)
    by_cases hov : position + 36 + messageLength > payload.length
    · have hbrk : position + 36 > payload.length ∨
          position + 36 + messageLength > payload.length := Or.inr hov
      rw [if_pos hbrk, if_pos hov]
      simp
    · have hbrk : ¬ (position + 36 > payload.length ∨
          position + 36 + messageLength > payload.length) := by omega
      rw [if_neg hbrk, if_neg hov]
      by_cases hend : position + 36 + messageLength + 36 ≥ payload.length
      · rw [if_pos hend, if_pos hend]
      · rw [if_neg hend, if_neg hend]
        have ha : position + 36 + messageLength + 36 ≤ payload.length := by omega
        have hb : payload.length ≤ position + 36 + messageLength + 36 * fuel := by omega
        rw [ih _ _ ha hb]
        simp

end Mapper

/-! ## Claims C3 and C9: map_messages -/

/-- A 76-byte payload holding the 4-byte prefix and two complete messages:
bytes 4..40 a zero-length message with offset 0, bytes 40..76 a zero-length
message with offset 1 whose header ends exactly at the end of the buffer
(fully contained: 40 + 36 + 0 = 76 = length). -/
def droppedTailPayload : List Nat :=
  [0, 0, 0, 0] ++
    (List.replicate 32 0 ++ [0, 0, 0, 0]) ++
    ([1] ++ List.replicate 31 0 ++ [0, 0, 0, 0])

/-- Claim C3, counterexample, both halves of the claim: (1) a payload
truncated to 5 bytes is non-empty, so the loop starts at position 4 and
the slice `payload[4..12]` is out of bounds — `map_messages` panics
(modelled as `none`) instead of tolerating the truncation; (2) on the
76-byte payload, whose second message (offset 1, zero payload, ending
exactly at byte 76) is fully contained, `map_messages` returns only the
first message — the `position + PROPERTIES_SIZE >= length` break drops a
fully contained trailing message, so the result is not "exactly the
messages fully contained in the payload". -/
theorem mapMessages_truncation_counterexample :
    Mapper.map_messages (List.replicate 5 0) = none ∧
    droppedTailPayload.length = 76 ∧
    readU64LE droppedTailPayload 40 = some 1 ∧
    readU32LE droppedTailPayload 72 = some 0 ∧
    Mapper.map_messages droppedTailPayload = some [⟨0, 0, 0, 0, []⟩] := by
  refine ⟨by decide, by decide, by decide, by decide, by decide⟩

theorem isEmpty_false_of_length_pos {l : List Nat} (h : 0 < l.length) :
    l.isEmpty = false := by
  cases l with
  | nil => simp at h
  | cons a t => rfl

/-- Claim C3 (amended): `map_messages` panics on the truncated first
header whenever `4 < payload.length < 40`.  For a payload of length at
most 4 it returns `Ok` with no messages.  For every payload of length at
least 40 it neither panics nor returns an error because of truncation, and
it returns, sorted by offset, exactly the reference chain
`decodeMessagesAux`: the consecutive messages decoded from position 4,
stopping at the first message that overruns the truncated end (that
message and everything after it is dropped) and also stopping once at most
36 bytes follow an appended message (which drops even a fully contained
trailing zero-length message). -/
theorem mapMessages_truncation_boundary (payload : List Nat) :
    (payload.length ≤ 4 → Mapper.map_messages payload = some []) ∧
    (40 ≤ payload.length → Mapper.map_messages payload =
      some (Mapper.sortMessagesByOffset
        (Mapper.decodeMessagesAux payload (payload.length + 1) 4))) ∧
    (4 < payload.length → payload.length < 40 →
      Mapper.map_messages payload = none) := by
  refine ⟨?_, ?_, ?_⟩
  · intro h
    by_cases h0 : payload.length = 0
    · have he : payload = [] := List.eq_nil_of_length_eq_zero h0
      simp [Mapper.map_messages, he]
    · have he : payload.isEmpty = false := isEmpty_false_of_length_pos (by omega)
      have hlt : ¬ (4 < payload.length) := by omega
      simp [Mapper.map_messages, he, Mapper.mapMessagesLoop, hlt,
        Mapper.sortMessagesByOffset, List.insertionSort]
  · intro h
    have he : payload.isEmpty = false := isEmpty_false_of_length_pos (by omega)
    simp only [Mapper.map_messages, he, Bool.false_eq_true, if_false]
    rw [Mapper.mapMessagesLoop_eq_decode payload (payload.length + 1) 4 []
      (by omega) (by omega)]
    simp
  · intro h1 h2
    have he : payload.isEmpty = false := isEmpty_false_of_length_pos (by omega)
    have r4 : readU32LE payload 36 = none := by
      simp [readU32LE, sliceBytes_of_gt (show payload.length < 36 + 4 by omega)]
    simp only [Mapper.map_messages, he, Bool.false_eq_true, if_false]
    cases e1 : readU64LE payload 4 <;>
      cases e2 : readU64LE payload 12 <;>
        cases e3 : readU128LE payload 20 <;>
          simp [Mapper.mapMessagesLoop, h1, e1, e2, e3, r4]

/-- Claim C3, witness: a 3-byte payload yields no messages; a 40-byte
payload (complete 36-byte header after the 4-byte prefix) decodes cleanly
to exactly the reference chain — the concrete single zero message — and a
20-byte payload panics. -/
theorem mapMessages_truncation_boundary_witness :
    Mapper.map_messages (List.replicate 3 0) = some [] ∧
    Mapper.map_messages (List.replicate 40 0) =
      some (Mapper.sortMessagesByOffset
        (Mapper.decodeMessagesAux (List.replicate 40 0)
          ((List.replicate 40 0).length + 1) 4)) ∧
    Mapper.map_messages (List.replicate 40 0) = some [⟨0, 0, 0, 0, []⟩] ∧
    Mapper.map_messages (List.replicate 20 0) = none :=
  ⟨(mapMessages_truncation_boundary (List.replicate 3 0)).1 (by decide),
    (mapMessages_truncation_boundary (List.replicate 40 0)).2.1 (by decide),
    by decide,
    (mapMessages_truncation_boundary (List.replicate 20 0)).2.2 (by decide) (by decide)⟩

/-- A payload decoding to two messages with the same offset 0: a 4-byte
prefix, then two messages of 36-byte headers (offset 0, timestamp 0,
id 0, length 1) and one payload byte each. -/
def duplicateOffsetPayload : List Nat :=
  [0, 0, 0, 0] ++
    (List.replicate 32 0 ++ [1, 0, 0, 0] ++ [7]) ++
    (List.replicate 32 0 ++ [1, 0, 0, 0] ++ [9])

/-- Claim C9, counterexample: `map_messages` only sorts by offset, it does
not deduplicate, so a payload carrying two messages with equal offsets
returns both — the offsets of the result are not strictly increasing. -/
theorem mapMessages_strict_monotonicity_counterexample :
    Mapper.map_messages duplicateOffsetPayload =
      some [⟨0, 0, 0, 1, [7]⟩, ⟨0, 0, 0, 1, [9]⟩] ∧
    (⟨0, 0, 0, 1, [7]⟩ : Mapper.Message).offset =
      (⟨0, 0, 0, 1, [9]⟩ : Mapper.Message).offset :=
  ⟨by decide, rfl⟩

/-- Claim C9 (amended): for every payload on which `map_messages` returns
`Ok`, the returned messages are sorted by offset in non-decreasing order
(equal offsets may repeat, so the order is not strict). -/
theorem mapMessages_sorted_by_offset (payload : List Nat) (msgs : List Mapper.Message)
    (h : Mapper.map_messages payload = some msgs) :
    List.Sorted Mapper.msgLE msgs := by
  rw [Mapper.map_messages] at h
  split at h
  · cases h
    exact List.sorted_nil
  · rw [Option.map_eq_some'] at h
    obtain ⟨l, _, hl⟩ := h
    rw [← hl]
    exact List.sorted_insertionSort Mapper.msgLE l

/-- Claim C9, witness: the sortedness theorem applied to a 40-byte payload
decoding to one message. -/
theorem mapMessages_sorted_by_offset_witness :
    Mapper.map_messages (List.replicate 40 0) = some [⟨0, 0, 0, 0, []⟩] ∧
    List.Sorted Mapper.msgLE [(⟨0, 0, 0, 0, []⟩ : Mapper.Message)] :=
  ⟨by decide, mapMessages_sorted_by_offset (List.replicate 40 0) _ (by decide)⟩

/-! ## Claim C8: map_offset -/

/-- Claim C8: `map_offset` reads the consumer id as a little-endian `u32`
from bytes `0..4` and the offset as a little-endian `u64` from bytes
`4..12` of any payload holding at least 12 bytes. -/
theorem mapOffset_layout (payload : List Nat) (h : 12 ≤ payload.length) :
    Mapper.map_offset payload =
      some ⟨leValue (payload.take 4), leValue ((payload.drop 4).take 8)⟩ := by
  have r1 : readU32LE payload 0 = some (leValue ((payload.drop 0).take 4)) := by
    simp [readU32LE, sliceBytes_of_le (show 0 + 4 ≤ payload.length by omega)]
  have r2 : readU64LE payload 4 = some (leValue ((payload.drop 4).take 8)) := by
    simp [readU64LE, sliceBytes_of_le (show 4 + 8 ≤ payload.length by omega)]
  rw [Mapper.map_offset, r1, r2]
  simp

/-- Claim C8, witness: the layout theorem applied to the 12-byte payload
`07 00 00 00 63 00 00 00 00 00 00 00` yields consumer id 7 and offset 99. -/
theorem mapOffset_layout_witness :
    Mapper.map_offset [7, 0, 0, 0, 99, 0, 0, 0, 0, 0, 0, 0] = some ⟨7, 99⟩ := by
  rw [mapOffset_layout [7, 0, 0, 0, 99, 0, 0, 0, 0, 0, 0, 0] (by decide)]
  decide

/-! ## Claim C2: map_to_stream versus map_to_topic -/

/-- Renaming of a decoded topic header into a stream header: same id,
same count field, same name bytes, same consumed length. -/
def topicHeaderAsStream (tn : Mapper.Topic × Nat) : Mapper.Stream × Nat :=
  (⟨tn.1.id, tn.1.partitions_count, tn.1.name⟩, tn.2)

theorem map_to_stream_eq_renamed_map_to_topic (payload : List Nat) (position : Nat) :
    Mapper.map_to_stream payload position =
      (Mapper.map_to_topic payload position).map (Except.map topicHeaderAsStream) := by
  rw [Mapper.map_to_stream, Mapper.map_to_topic]
  cases e1 : readU32LE payload position <;>
    cases e2 : readU32LE payload (position + 4) <;>
      cases e3 : readU32LE payload (position + 8) <;>
        try rfl
  case some.some.some id count nameLength =>
    dsimp only
    cases e4 : sliceBytes payload (position + 12) nameLength
    case none => rfl
    case some nameBytes =>
      dsimp only
      cases e5 : fromUtf8 nameBytes <;> simp [Except.map, topicHeaderAsStream]

theorem map_topic_eq_with_topic_header (payload : List Nat) :
    Mapper.map_topic payload = Mapper.mapTopicWithTopicHeader payload := by
  rw [Mapper.map_topic, Mapper.mapTopicWithTopicHeader,
    map_to_stream_eq_renamed_map_to_topic payload 0]
  cases e : Mapper.map_to_topic payload 0 with
  | none => simp
  | some ex =>
    cases ex with
    | error e => simp [Except.map]
    | ok tn => simp [Except.map, topicHeaderAsStream]

/-- Claim C2: the private decoders `map_to_stream` and `map_to_topic` are
extensionally equal up to field naming — on every payload and position
they both panic, both fail, or both succeed with the same id, count,
name and consumed byte count — and consequently `map_topic`, which decodes
the topic header via `map_to_stream`, returns exactly the `TopicDetails`
it would return using `map_to_topic`. -/
theorem mapToStream_mapToTopic_equivalent :
    (∀ payload position, Mapper.map_to_stream payload position =
      (Mapper.map_to_topic payload position).map (Except.map topicHeaderAsStream)) ∧
    (∀ payload, Mapper.map_topic payload = Mapper.mapTopicWithTopicHeader payload) :=
  ⟨map_to_stream_eq_renamed_map_to_topic, map_topic_eq_with_topic_header⟩

/-! ## Claim C4: SegmentConfig validation

Embedded from `src/server/src/configs/validators.rs`, lines 132-140. -/

/-- The server configuration error kinds produced by the embedded
validators (`ServerConfigError` in `src/server/src/server_error.rs`). -/
inductive ServerConfigError where
  | invalidConfiguration
  | cacheConfigValidationFailure
deriving DecidableEq, Repr

/-- Modelled from the spec: `segment::MAX_SIZE_BYTES`, the per-segment
byte cap of `2 ^ 31 - 1` ("Max bytes per segment (cap 2^31 − 1)"); the
constant lives in `src/server/src/streaming/segments/segment.rs`, which is
not among the provided sources.  It is a `u32` in the source, since the
validator compares it against a value cast `as u32`. -/
def MAX_SIZE_BYTES : Nat := 2 ^ 31 - 1

/-- Source `Validatable for SegmentConfig` (lines 132-140): the configured size
is a `u64` byte count, and the source compares
`self.size.as_bytes_u64() as u32 > segment::MAX_SIZE_BYTES` — the `as u32`
cast truncates the size to its low 32 bits before the comparison. -/
def segmentConfigValidate (sizeBytes : Nat) : Except ServerConfigError Unit :=
  if sizeBytes % 2 ^ 32 > MAX_SIZE_BYTES then .error .invalidConfiguration
  else .ok ()

/-- Claim C4: the cap is NOT enforced for all `u64` sizes — the size
`2 ^ 32` exceeds `2 ^ 31 - 1`, yet its low 32 bits are 0, so the truncating
cast makes validation accept it, contradicting the configured cap the spec
requires (`segment.size` cap `2^31 − 1`, rejected with
`InvalidConfiguration`). -/
theorem segmentConfigValidate_truncation_bug :
    segmentConfigValidate (2 ^ 32) = .ok () ∧ MAX_SIZE_BYTES < 2 ^ 32 ∧
    segmentConfigValidate (2 ^ 31) = .error .invalidConfiguration := by
  refine ⟨by decide, by decide, by decide⟩

/-! ## Claim C5: CreateStream handler atomicity

The handler is embedded from
`src/server/src/binary/handlers/streams/create_stream_handler.rs`.  The
broker system it drives (`System::create_stream`, `State::apply`) is not
among the provided sources, so it is modelled from the spec. -/

namespace CreateStreamHandler

/-- A stream registry entry: numeric id and name. -/
structure RegistryStream where
  id : Nat
  name : List Nat
deriving DecidableEq, Repr

/-- The broker's in-memory stream registry (the part of `System` the
CreateStream command touches). -/
structure SystemState where
  streams : List RegistryStream
deriving DecidableEq, Repr

/-- The `CreateStream` command payload: stream id and name. -/
structure CreateStream where
  stream_id : Nat
  name : List Nat
deriving DecidableEq, Repr

/-- A durable state-log entry recording an applied command. -/
structure StateEntry where
  user_id : Nat
  command : CreateStream
deriving DecidableEq, Repr

/-- Modelled from the spec: `System::create_stream`
(`src/server/src/streaming/systems/streams.rs`, not among the sources).
Stream ids and names are unique ("Names are unique per parent scope;
stream names globally unique"); on success the stream is added to the
in-memory registry. -/
def createStream (st : SystemState) (streamId : Nat) (name : List Nat) :
    Except Error SystemState :=
  if st.streams.any fun s => s.id = streamId || s.name = name then
    .error .resourceAlreadyExists
  else .ok ⟨st.streams ++ [⟨streamId, name⟩]⟩

/-- Everything the handler leaves behind: the value it returns, the
in-memory registry, the durable state log, and whether
`send_ok_response` ran. -/
structure HandlerOutcome where
  result : Except Error Unit
  state : SystemState
  stateLog : List StateEntry
  ok_response_sent : Bool
deriving DecidableEq, Repr

/-- Source `handle` (lines 13-50 of the handler): create the stream in memory
under the write lock, then append the entry to the state log
(`system.state.apply`), then send the success response.  `applyOk` models
whether the state-log append succeeds; `State::apply` itself is disk code
not among the sources ("Entries are written atomically (write then fsync
before acknowledging the originating command)").  Each `?` in the source
propagates the error immediately — note that the `Err` branch after a
successful `create_stream` leaves the new stream in memory. -/
def handle (st : SystemState) (stateLog : List StateEntry) (userId : Nat)
    (command : CreateStream) (applyOk : Bool) : HandlerOutcome :=
  match createStream st command.stream_id command.name with
  | .error e => ⟨.error e, st, stateLog, false⟩
  | .ok st2 =>
    if applyOk then ⟨.ok (), st2, stateLog ++ [⟨userId, command⟩], true⟩
    else ⟨.error .ioError, st2, stateLog, false⟩

end CreateStreamHandler

/-- Claim C5, counterexample: starting from an empty registry, creating
stream 1 named "s" with a failing state-log append fails the command and
sends no success response, but the in-memory registry is NOT restored: it
still contains the new stream, so it differs from its pre-command value. -/
theorem createStreamHandler_rollback_counterexample :
    (CreateStreamHandler.handle ⟨[]⟩ [] 0 ⟨1, [115]⟩ false).result =
      .error .ioError ∧
    (CreateStreamHandler.handle ⟨[]⟩ [] 0 ⟨1, [115]⟩ false).ok_response_sent = false ∧
    (CreateStreamHandler.handle ⟨[]⟩ [] 0 ⟨1, [115]⟩ false).state ≠ ⟨[]⟩ := by
  refine ⟨by decide, by decide, by decide⟩

/-- Claim C5 (amended): if the state-log append fails after the stream was
created in memory, the command fails and no success response is sent, but
the in-memory change is NOT rolled back — the handler returns with the
newly created stream still present in the registry and the state log
unchanged. -/
theorem createStreamHandler_apply_failure (st : CreateStreamHandler.SystemState)
    (stateLog : List CreateStreamHandler.StateEntry) (userId : Nat)
    (command : CreateStreamHandler.CreateStream) (st2 : CreateStreamHandler.SystemState)
    (h : CreateStreamHandler.createStream st command.stream_id command.name = .ok st2) :
    CreateStreamHandler.handle st stateLog userId command false =
      ⟨.error .ioError, st2, stateLog, false⟩ ∧
    st2.streams = st.streams ++ [⟨command.stream_id, command.name⟩] := by
  constructor
  · rw [CreateStreamHandler.handle, h]
    rfl
  · rw [CreateStreamHandler.createStream] at h
    split at h
    · cases h
    · cases h
      rfl

/-- Claim C5, witness: the apply-failure theorem at the concrete command
`{stream_id := 1, name := "s"}` on an empty registry. -/
theorem createStreamHandler_apply_failure_witness :
    CreateStreamHandler.handle ⟨[]⟩ [] 0 ⟨1, [115]⟩ false =
      ⟨.error .ioError, ⟨[⟨1, [115]⟩]⟩, [], false⟩ ∧
    (⟨[⟨1, [115]⟩]⟩ : CreateStreamHandler.SystemState).streams =
      ([] : List CreateStreamHandler.RegistryStream) ++ [⟨1, [115]⟩] :=
  createStreamHandler_apply_failure ⟨[]⟩ [] 0 ⟨1, [115]⟩ ⟨[⟨1, [115]⟩]⟩ (by decide)

end IggyVerify
